import Mathlib

/-!
Verification of the lot-tracking ledger and pending-operation
reconciliation engine of the `sys` repository.

Dates are embedded as integer day numbers (chrono NaiveDate differences
are exact day counts), Decimal prices as rationals, u64 token amounts as
naturals (no claim below depends on 64-bit wraparound), and addresses,
signatures and tags as opaque naturals.  Functions of the source that
perform network or terminal I/O are embedded as pure functions over the
facts those collaborators return.
-/

/-- Tagged acquisition provenance of a lot (db module, used throughout
process.rs and bin/sys.rs).  Only the variants reached by the verified
code paths are embedded. -/
inductive LotAcquistionKind
  | epochReward (epoch : Nat) (slot : Nat)
  | notAvailable
  | fiat
  deriving DecidableEq

/-- Acquisition record of a lot: date (day number), unit price, kind. -/
structure LotAcquistion where
  when : Int
  price : ℚ
  kind : LotAcquistionKind
  deriving DecidableEq

/-- A lot: globally unique number, acquisition record, amount in the
smallest token unit (u64 in the source). -/
structure Lot where
  lot_number : Nat
  acquisition : LotAcquistion
  amount : Nat
  deriving DecidableEq

/-- A tracked account as stored by the db module: address and token form
the key; balance and lots are reconciled against the chain. -/
structure TrackedAccount where
  address : Nat
  tokenId : Nat
  description : String
  last_update_epoch : Nat
  last_update_balance : Nat
  lots : List Lot
  no_sync : Option Bool
  deriving DecidableEq

/-- Sum of the amounts of the lots of an account. -/
def lotBalance (a : TrackedAccount) : Nat :=
  (a.lots.map Lot.amount).sum

/-- The balance invariant checked by assert_lot_balance in the source:
the recorded balance equals the sum of the lot amounts. -/
def balanceInvariant (a : TrackedAccount) : Prop :=
  a.last_update_balance = lotBalance a

instance (a : TrackedAccount) : Decidable (balanceInvariant a) := by
  unfold balanceInvariant; infer_instance

/-- Long-term capital gain test, from process.rs lines 38-42 (duplicated
verbatim in bin/sys.rs lines 74-78 and commands.rs lines 796-800): the
holding period from acquisition to disposal (defaulting to today when the
disposal date is absent) is at least 365 days. -/
def is_long_term_cap_gain (acquisition : Int) (disposal : Option Int)
    (todayDate : Int) : Bool :=
  let d := disposal.getD todayDate
  decide ((365 : Int) ≤ d - acquisition)

/-- Account creation from bin/sys.rs process_account_add (lines
1744-1779): when the amount is positive a single lot with the freshly
drawn lot number, the resolved acquisition date, price and kind is
created; the account is stored with last_update_balance equal to the
amount.  The date, price and kind arguments stand for the values the
source has already resolved at line 1744. -/
def process_account_add (lotNumber : Nat) (whenDate : Int) (price : ℚ)
    (kind : LotAcquistionKind) (amount : Nat) (address tokenId : Nat)
    (description : String) (epoch : Nat) (noSync : Bool) : TrackedAccount :=
  { address := address
    tokenId := tokenId
    description := description
    last_update_epoch := epoch
    last_update_balance := amount
    lots :=
      if 0 < amount then
        [{ lot_number := lotNumber
           acquisition := { when := whenDate, price := price, kind := kind }
           amount := amount }]
      else []
    no_sync := some noSync }

/-- Inflation-reward step of process_account_sync, process.rs lines
1115-1162: an account whose last_update_epoch has already reached the
epoch is skipped; otherwise, when the chain reports a reward, the balance
grows by the reward amount and a lot of kind epochReward with exactly
that amount is appended. -/
def inflationRewardStep (epoch slot : Nat) (reward : Option Nat)
    (lotNumber : Nat) (whenDate : Int) (price : ℚ)
    (acct : TrackedAccount) : TrackedAccount :=
  if epoch ≤ acct.last_update_epoch then acct
  else
    match reward with
    | none => acct
    | some r =>
      { acct with
        last_update_balance := acct.last_update_balance + r
        lots := acct.lots ++
          [{ lot_number := lotNumber
             acquisition :=
               { when := whenDate, price := price
                 kind := LotAcquistionKind.epochReward epoch slot }
             amount := r }] }

/-- Comparator used at process.rs line 1050: order lots by acquisition
price. -/
def lotPriceLe (a b : Lot) : Bool :=
  decide (a.acquisition.price ≤ b.acquisition.price)

/-- Reconciliation of one no-sync account, process.rs lines 1026-1071:
accounts without lots are skipped; a chain balance below the recorded one
only warns; a chain balance above it sorts the lots by acquisition price,
adds the whole surplus to the first (lowest-priced) lot, sets the balance
to the chain balance and persists the account.  The returned flag records
whether db.update_account was called. -/
def reconcileNoSyncAccount (currentBalance : Nat)
    (acct : TrackedAccount) : TrackedAccount × Bool :=
  if acct.lots.isEmpty then (acct, false)
  else if currentBalance < acct.last_update_balance then (acct, false)
  else if acct.last_update_balance < currentBalance then
    match acct.lots.mergeSort lotPriceLe with
    | [] => (acct, false)
    | l :: rest =>
      ({ acct with
          lots :=
            { l with
              amount := l.amount + (currentBalance - acct.last_update_balance) }
            :: rest
          last_update_balance := currentBalance }, true)
  else (acct, false)

/-- Guard of the reconcile block, process.rs lines 1011-1030: the block
runs only when the reconcile flag was passed, and only over the accounts
carrying the no-sync flag (the partition at line 1023). -/
def reconcileStep (reconcileFlag : Bool) (currentBalance : Nat)
    (acct : TrackedAccount) : TrackedAccount × Bool :=
  if reconcileFlag && acct.no_sync.getD false then
    reconcileNoSyncAccount currentBalance acct
  else (acct, false)

/-- Per-account balance scan of process_account_sync, process.rs lines
1167-1227 (identical code in bin/sys.rs lines 3735-3793): the epoch
high-water mark is always advanced to stopEpoch; a chain balance below
the recorded one only warns; a chain balance exceeding the recorded one
by more than the dust threshold (token.amount(0.005) in the source)
appends a lot of unknown provenance holding the surplus and sets the
balance to the chain balance.  The account is persisted afterwards in
every case. -/
def accountScanStep (stopEpoch currentBalance dust lotNumber : Nat)
    (whenDate : Int) (price : ℚ) (acct : TrackedAccount) : TrackedAccount :=
  let acct1 := { acct with last_update_epoch := stopEpoch }
  if currentBalance < acct1.last_update_balance then acct1
  else if acct1.last_update_balance + dust < currentBalance then
    { acct1 with
      lots := acct1.lots ++
        [{ lot_number := lotNumber
           acquisition :=
             { when := whenDate, price := price
               kind := LotAcquistionKind.notAvailable }
           amount := currentBalance - acct1.last_update_balance }]
      last_update_balance := currentBalance }
  else acct1

/-- Terminal decision a sync pass takes for one pending swap or
transfer. -/
inductive SyncDecision
  | confirm
  | cancel
  | keep
  deriving DecidableEq

/-- Pending-swap sync, process.rs lines 390-570 of process_sync_swaps:
with a reported status the swap is confirmed on success and cancelled on
failure; with no reported status it is cancelled exactly when the chain
block height exceeds last_valid_block_height, and otherwise left
pending.  The status argument holds result.is_ok() when the chain
reported a status. -/
def syncSwapDecision (blockHeight lastValidBlockHeight : Nat)
    (status : Option Bool) : SyncDecision :=
  match status with
  | some ok => if ok then SyncDecision.confirm else SyncDecision.cancel
  | none =>
    if lastValidBlockHeight < blockHeight then SyncDecision.cancel
    else SyncDecision.keep

/-- Pending-transfer sync, process.rs lines 1244-1276 of
process_account_sync_pending_transfers: the same decision structure as
for swaps. -/
def syncTransferDecision (blockHeight lastValidBlockHeight : Nat)
    (status : Option Bool) : SyncDecision :=
  match status with
  | some ok => if ok then SyncDecision.confirm else SyncDecision.cancel
  | none =>
    if lastValidBlockHeight < blockHeight then SyncDecision.cancel
    else SyncDecision.keep

/-- One deposit reported by the exchange client: the transaction id it
carries and the reported amount already converted to base units
(token.amount(deposit_info.amount) at bin/sys.rs line 283). -/
structure DepositInfo where
  txId : Nat
  amountBase : Nat
  deriving DecidableEq

/-- The fields of a pending exchange deposit that the sync pass reads. -/
structure PendingDepositRec where
  signature : Nat
  amount : Nat
  lastValidBlockHeight : Nat
  deriving DecidableEq

/-- Action the deposit sync pass of process_sync_exchange takes for one
pending deposit. -/
inductive DepositSyncAction
  | dropDeposit
  | abortProcess
  | mismatchError
  | confirmDeposit (amount : Nat)
  | cancelDeposit
  | keep
  deriving DecidableEq

/-- Pending-deposit sync, bin/sys.rs lines 219-351 of
process_sync_exchange.  The status argument mirrors the closure at lines
229-237: when the chain returned a status it holds
(satisfies_commitment, err.is_none()), and a missing status collapses to
(false, false) through unwrap_or_default.  A confirmed and error-free
deposit is settled against the exchange deposit history: with no history
available the lots are dropped for a fiat-fungible token and the process
aborts otherwise; with history available, a reported amount differing
from the recorded one by 10 or more base units only reports an error,
and otherwise db.confirm_deposit is called, which applies the recorded
pending amount (it receives only the signature and date).  A status that
is not error-free cancels the deposit; an error-free but unconfirmed
status cancels it exactly when the block height exceeds
last_valid_block_height. -/
def syncDepositAction (blockHeight : Nat) (pd : PendingDepositRec)
    (status : Option (Bool × Bool)) (fiatFungible : Bool)
    (recentDeposits : Option (List DepositInfo)) : DepositSyncAction :=
  let c := status.getD (false, false)
  if c.1 && c.2 then
    match recentDeposits with
    | none =>
      if fiatFungible then DepositSyncAction.dropDeposit
      else DepositSyncAction.abortProcess
    | some ds =>
      match ds.find? (fun di => di.txId == pd.signature) with
      | none => DepositSyncAction.keep
      | some di =>
        if 10 ≤ ((di.amountBase : Int) - (pd.amount : Int)).natAbs then
          DepositSyncAction.mismatchError
        else DepositSyncAction.confirmDeposit pd.amount
  else if !c.2 then DepositSyncAction.cancelDeposit
  else if pd.lastValidBlockHeight < blockHeight then
    DepositSyncAction.cancelDeposit
  else DepositSyncAction.keep

/-- One withdrawal reported by the exchange client: completion flag and
the transaction id of the completed withdrawal, when one exists. -/
structure WithdrawalInfo where
  tag : Nat
  completed : Bool
  txId : Option Nat
  deriving DecidableEq

/-- A pending exchange withdrawal as recorded at request time: amount,
fee, and the backing lots already selected then (the spec states the
selection happens at request time while disposal is deferred to
confirmation). -/
structure PendingWithdrawalRec where
  tag : Nat
  amount : Nat
  fee : Nat
  backingLots : List Lot
  deriving DecidableEq

/-- Action the withdrawal sync pass of process_sync_exchange takes for
one pending withdrawal. -/
inductive WithdrawalSyncAction
  | confirmW (whenDate : Int)
  | cancelW
  | keepW
  deriving DecidableEq

/-- Pending-withdrawal sync, bin/sys.rs lines 171-217 of
process_sync_exchange: a completed withdrawal carrying a transaction id
is confirmed dated today; a completed withdrawal without a transaction
id is cancelled; an uncompleted withdrawal stays pending. -/
def syncWithdrawalAction (todayDate : Int)
    (wi : WithdrawalInfo) : WithdrawalSyncAction :=
  if wi.completed then
    match wi.txId with
    | some _ => WithdrawalSyncAction.confirmW todayDate
    | none => WithdrawalSyncAction.cancelW
  else WithdrawalSyncAction.keepW

/-- A disposal record: the disposed lot, the disposal date and the
optional realized fee. -/
structure DisposedLot where
  lot : Lot
  whenDate : Int
  fee : Option Nat
  deriving DecidableEq

/-- Modelled from the spec: the observable slice of the persistent
ledger store (the db module is not part of the source tree; only its
callers are).  Accounts, append-only disposal records, and the four
pending-operation sets keyed by signature or tag. -/
structure Ledger where
  accounts : List TrackedAccount
  disposedLots : List DisposedLot
  pendingWithdrawals : List PendingWithdrawalRec
  pendingDeposits : List PendingDepositRec
  pendingSwaps : List Nat
  pendingTransfers : List Nat
  deriving DecidableEq

/-- Modelled from the spec: Db::record_withdrawal (missing db module)
opens a pending withdrawal record; the backing lots are selected but
only tentatively marked, nothing is disposed and no account changes. -/
def record_withdrawal (ledger : Ledger)
    (rec : PendingWithdrawalRec) : Ledger :=
  { ledger with
    pendingWithdrawals := ledger.pendingWithdrawals ++ [rec] }

/-- Exchange withdrawal request, bin/sys.rs lines 666-711: after the
exchange client accepts the request, the only ledger mutation performed
is db.record_withdrawal with the amount, fee and selected lot policy. -/
def process_exchange_withdraw (ledger : Ledger)
    (rec : PendingWithdrawalRec) : Ledger :=
  record_withdrawal ledger rec

/-- Modelled from the spec: Db::confirm_withdrawal (missing db module)
disposes the backing lots selected at request time, dating every
disposal record at the given date and recording the realized fee, and
removes the pending record. -/
def confirm_withdrawal (ledger : Ledger) (tag : Nat)
    (whenDate : Int) : Ledger :=
  match ledger.pendingWithdrawals.find? (fun p => p.tag == tag) with
  | none => ledger
  | some p =>
    { ledger with
      pendingWithdrawals :=
        ledger.pendingWithdrawals.filter (fun q => q.tag != tag)
      disposedLots := ledger.disposedLots ++
        p.backingLots.map (fun l => { lot := l, whenDate := whenDate, fee := some p.fee }) }

/-- Modelled from the spec: Db::cancel_withdrawal (missing db module)
restores nothing and removes the pending record; no lot was disposed at
request time, so none has to be restored. -/
def cancel_withdrawal (ledger : Ledger) (tag : Nat) : Ledger :=
  { ledger with
    pendingWithdrawals :=
      ledger.pendingWithdrawals.filter (fun q => q.tag != tag) }

/-- Modelled from the spec: Db::cancel_swap (missing db module) removes
the pending record with no other ledger mutation. -/
def cancel_swap (ledger : Ledger) (signature : Nat) : Ledger :=
  { ledger with
    pendingSwaps := ledger.pendingSwaps.filter (fun s => s != signature) }

/-- Modelled from the spec: Db::cancel_transfer (missing db module)
removes the pending record with no other ledger mutation. -/
def cancel_transfer (ledger : Ledger) (signature : Nat) : Ledger :=
  { ledger with
    pendingTransfers :=
      ledger.pendingTransfers.filter (fun s => s != signature) }

/-- Modelled from the spec: Db::cancel_deposit (missing db module)
removes the pending record with no other ledger mutation (the source
side was never debited by this subsystem). -/
def cancel_deposit (ledger : Ledger) (signature : Nat) : Ledger :=
  { ledger with
    pendingDeposits :=
      ledger.pendingDeposits.filter (fun p => p.signature != signature) }

/-- The withdrawal part of one process_sync_exchange pass applied to the
ledger: the decision from bin/sys.rs lines 181-216 drives the modelled
db operations. -/
def applyWithdrawalSync (todayDate : Int) (wi : WithdrawalInfo)
    (pw : PendingWithdrawalRec) (ledger : Ledger) : Ledger :=
  match syncWithdrawalAction todayDate wi with
  | WithdrawalSyncAction.confirmW d => confirm_withdrawal ledger pw.tag d
  | WithdrawalSyncAction.cancelW => cancel_withdrawal ledger pw.tag
  | WithdrawalSyncAction.keepW => ledger

/-- The in-process current-price cache state of coin_gecko.rs lines
75-92: an association of token to cached price, and the instant (in
whole seconds) recorded by LAST_DATA_FETCH_INSTANT. -/
structure PriceCacheState where
  cache : List (Nat × ℚ)
  lastDataFetchInstant : Nat
  deriving DecidableEq

/-- First price recorded for a token, HashMap::get semantics over the
association list. -/
def lookupPrice (tok : Nat) (c : List (Nat × ℚ)) : Option ℚ :=
  (c.find? (fun e => e.1 == tok)).map Prod.snd

/-- HashMap::remove semantics: drop the entry of one token. -/
def erasePrice (tok : Nat) (c : List (Nat × ℚ)) : List (Nat × ℚ) :=
  c.filter (fun e => e.1 != tok)

/-- HashMap::insert semantics: replace or add the entry of one token. -/
def insertPrice (tok : Nat) (p : ℚ) (c : List (Nat × ℚ)) : List (Nat × ℚ) :=
  (tok, p) :: erasePrice tok c

/-- Insert every price returned by one Coin Gecko fetch. -/
def insertAllPrices (fetched : List (Nat × ℚ)) (c : List (Nat × ℚ)) :
    List (Nat × ℚ) :=
  fetched.foldl (fun acc e => insertPrice e.1 e.2 acc) c

/-- get_current_price, coin_gecko.rs lines 75-224: when more than 30
seconds have elapsed since the recorded fetch instant, the entry of the
requested token is removed and the instant reset; then a present cache
entry is returned directly, and otherwise one network fetch inserts
every returned price and the requested entry is looked up again.
The returned flag is true exactly when the cached entry was returned
without fetching; the fetched argument stands for the prices the network
would return. -/
def get_current_price (st : PriceCacheState) (now : Nat) (tok : Nat)
    (fetched : List (Nat × ℚ)) : Bool × Option ℚ × PriceCacheState :=
  let st1 :=
    if 30 < now - st.lastDataFetchInstant then
      { cache := erasePrice tok st.cache, lastDataFetchInstant := now }
    else st
  match lookupPrice tok st1.cache with
  | some p => (true, some p, st1)
  | none =>
    let cache2 := insertAllPrices fetched st1.cache
    (false, lookupPrice tok cache2, { st1 with cache := cache2 })

/-- A concrete sample account used by the evaluation witnesses below. -/
def acctSampleA : TrackedAccount :=
  { address := 1
    tokenId := 0
    description := ""
    last_update_epoch := 3
    last_update_balance := 12
    lots :=
      [{ lot_number := 1
         acquisition := { when := 0, price := 2, kind := LotAcquistionKind.fiat }
         amount := 12 }]
    no_sync := some true }

/-- A concrete sample pending withdrawal used by the evaluation
witnesses below. -/
def wRecSample : PendingWithdrawalRec :=
  { tag := 3
    amount := 50
    fee := 1
    backingLots :=
      [{ lot_number := 9
         acquisition := { when := 0, price := 1, kind := LotAcquistionKind.fiat }
         amount := 50 }] }

/-- A concrete sample ledger holding the sample pending withdrawal. -/
def ledgerSample : Ledger :=
  { accounts := []
    disposedLots := []
    pendingWithdrawals := [wRecSample]
    pendingDeposits := []
    pendingSwaps := []
    pendingTransfers := [] }

/-- A concrete sample exchange-reported deposit. -/
def depSample : DepositInfo :=
  { txId := 7, amountBase := 100 }

/-- A concrete sample pending deposit matching depSample. -/
def pdSample : PendingDepositRec :=
  { signature := 7, amount := 95, lastValidBlockHeight := 0 }

/-- A concrete sample price-cache state. -/
def priceStSample : PriceCacheState :=
  { cache := [(1, 5)], lastDataFetchInstant := 100 }

/-- C3: the gain is classified long-term if and only if disposal minus
acquisition is at least 365 days, with the disposal date defaulting to
today when absent; a lot disposed exactly 365 days after acquisition is
long-term and one disposed 364 days after acquisition is short-term, and
no other rule is applied (the classifier is exactly this threshold test
for every pair of dates). -/
theorem long_term_cap_gain_365_day_threshold :
    ∀ a d t : Int,
      (is_long_term_cap_gain a (some d) t = true ↔ (365 : Int) ≤ d - a) ∧
      (is_long_term_cap_gain a none t = is_long_term_cap_gain a (some t) t) ∧
      is_long_term_cap_gain a (some (a + 365)) t = true ∧
      is_long_term_cap_gain a (some (a + 364)) t = false := by
  intro a d t
  refine ⟨?_, rfl, ?_, ?_⟩
  · simp [is_long_term_cap_gain]
  · simp [is_long_term_cap_gain]
  · simp [is_long_term_cap_gain]

theorem lotBalance_mergeSort (lots : List Lot) :
    ((lots.mergeSort lotPriceLe).map Lot.amount).sum = (lots.map Lot.amount).sum :=
  ((List.mergeSort_perm lots lotPriceLe).map Lot.amount).sum_eq

/-- C1: the balance invariant last_update_balance = sum of lot amounts
holds after each mutating account operation: process_account_add
establishes it (with the account holding exactly one lot whose amount is
the recorded balance whenever the amount is positive), the
inflation-reward step of process_account_sync preserves it and adds an
epoch-reward lot while growing the balance by exactly the reward amount,
and both the no-sync reconciliation step and the unexpected-balance scan
step preserve it before persisting the account. -/
theorem balance_invariant_after_mutations :
    (∀ lotNumber whenDate price kind amount address tokenId description epoch noSync,
      balanceInvariant (process_account_add lotNumber whenDate price kind amount
        address tokenId description epoch noSync) ∧
      (0 < amount →
        (process_account_add lotNumber whenDate price kind amount
          address tokenId description epoch noSync).lots =
          [{ lot_number := lotNumber
             acquisition := { when := whenDate, price := price, kind := kind }
             amount := amount }] ∧
        (process_account_add lotNumber whenDate price kind amount
          address tokenId description epoch noSync).last_update_balance = amount)) ∧
    (∀ epoch slot lotNumber whenDate price acct,
      (∀ reward, balanceInvariant acct →
        balanceInvariant (inflationRewardStep epoch slot reward lotNumber
          whenDate price acct)) ∧
      (∀ r, acct.last_update_epoch < epoch →
        (inflationRewardStep epoch slot (some r) lotNumber whenDate price
          acct).last_update_balance = acct.last_update_balance + r ∧
        (inflationRewardStep epoch slot (some r) lotNumber whenDate price
          acct).lots = acct.lots ++
          [{ lot_number := lotNumber
             acquisition :=
               { when := whenDate, price := price
                 kind := LotAcquistionKind.epochReward epoch slot }
             amount := r }])) ∧
    (∀ cur acct, balanceInvariant acct →
      balanceInvariant (reconcileNoSyncAccount cur acct).1) ∧
    (∀ stopEpoch cur dust lotNumber whenDate price acct, balanceInvariant acct →
      balanceInvariant (accountScanStep stopEpoch cur dust lotNumber
        whenDate price acct)) := by
  refine ⟨?_, ?_, ?_, ?_⟩
  · intro lotNumber whenDate price kind amount address tokenId description epoch noSync
    constructor
    · unfold balanceInvariant lotBalance process_account_add
      by_cases h : 0 < amount <;> simp [h] <;> omega
    · intro h
      unfold process_account_add
      simp [h]
  · intro epoch slot lotNumber whenDate price acct
    constructor
    · intro reward hinv
      unfold inflationRewardStep
      by_cases h : epoch ≤ acct.last_update_epoch
      · simp [h, hinv]
      · cases reward with
        | none => simp [h, hinv]
        | some r =>
          simp only [h, if_false]
          unfold balanceInvariant lotBalance at hinv ⊢
          simp [hinv]
    · intro r hlt
      unfold inflationRewardStep
      simp [Nat.not_le.mpr hlt]
  · intro cur acct hinv
    by_cases hemp : acct.lots.isEmpty
    · simp [reconcileNoSyncAccount, hemp, hinv]
    · by_cases hlt : cur < acct.last_update_balance
      · simp [reconcileNoSyncAccount, hemp, hlt, hinv]
      · by_cases hgt : acct.last_update_balance < cur
        · cases hms : acct.lots.mergeSort lotPriceLe with
          | nil => simp [reconcileNoSyncAccount, hemp, hlt, hgt, hms, hinv]
          | cons l rest =>
            simp only [reconcileNoSyncAccount, hemp, hlt, hgt, hms,
              Bool.false_eq_true, if_false, if_true]
            unfold balanceInvariant lotBalance at hinv ⊢
            simp only [List.map_cons, List.sum_cons]
            have hsum := lotBalance_mergeSort acct.lots
            rw [hms] at hsum
            simp only [List.map_cons, List.sum_cons] at hsum
            omega
        · simp [reconcileNoSyncAccount, hemp, hlt, hgt, hinv]
  · intro stopEpoch cur dust lotNumber whenDate price acct hinv
    unfold accountScanStep
    by_cases h1 : cur < acct.last_update_balance
    · simpa [h1, balanceInvariant, lotBalance] using hinv
    · by_cases h2 : acct.last_update_balance + dust < cur
      · simp only [h1, h2, if_false, if_true]
        unfold balanceInvariant lotBalance at hinv ⊢
        simp only [List.map_append, List.sum_append, List.map_cons,
          List.sum_cons, List.map_nil, List.sum_nil]
        omega
      · simpa [h1, h2, balanceInvariant, lotBalance] using hinv

theorem mergeSort_head_min_price (lots : List Lot) (l : Lot) (rest : List Lot)
    (h : lots.mergeSort lotPriceLe = l :: rest) :
    ∀ x ∈ lots, l.acquisition.price ≤ x.acquisition.price := by
  intro x hx
  have hperm : (lots.mergeSort lotPriceLe).Perm lots :=
    List.mergeSort_perm lots lotPriceLe
  have hx2 : x ∈ l :: rest := by
    rw [← h]
    exact hperm.symm.subset hx
  have htrans : ∀ a b c : Lot, lotPriceLe a b = true → lotPriceLe b c = true →
      lotPriceLe a c = true := by
    intro a b c hab hbc
    simp only [lotPriceLe, decide_eq_true_eq] at hab hbc ⊢
    exact le_trans hab hbc
  have htotal : ∀ a b : Lot, (lotPriceLe a b || lotPriceLe b a) = true := by
    intro a b
    simp only [lotPriceLe, Bool.or_eq_true, decide_eq_true_eq]
    exact le_total _ _
  have hs := List.sorted_mergeSort htrans htotal lots
  rw [h] at hs
  rcases List.mem_cons.mp hx2 with rfl | hmem
  · exact le_refl _
  · have := (List.pairwise_cons.mp hs).1 x hmem
    simpa [lotPriceLe] using this

/-- C6: for a no-sync account with at least one lot, when reconciliation
is requested and the chain balance strictly exceeds the recorded
last_update_balance, the whole surplus is added to the amount of the
first lot of the price-sorted lot list — a lot whose acquisition price
is lowest among all lots, every other lot keeping its amount —
last_update_balance becomes the chain balance, and the account is
persisted, despite the account carrying the no-sync flag. -/
theorem no_sync_reconcile_adds_surplus_to_lowest_price_lot
    (reconcileFlag : Bool) (cur : Nat) (acct : TrackedAccount)
    (hflag : reconcileFlag = true) (hns : acct.no_sync = some true)
    (hlots : acct.lots ≠ []) (hgt : acct.last_update_balance < cur) :
    ∃ l rest, acct.lots.mergeSort lotPriceLe = l :: rest ∧
      reconcileStep reconcileFlag cur acct =
        ({ acct with
            lots :=
              { l with amount := l.amount + (cur - acct.last_update_balance) }
              :: rest
            last_update_balance := cur }, true) ∧
      (∀ x ∈ acct.lots, l.acquisition.price ≤ x.acquisition.price) ∧
      (l :: rest).Perm acct.lots := by
  cases hms : acct.lots.mergeSort lotPriceLe with
  | nil =>
    exfalso
    have hperm := List.mergeSort_perm acct.lots lotPriceLe
    rw [hms] at hperm
    exact hlots hperm.symm.eq_nil
  | cons l rest =>
    have hperm : (l :: rest).Perm acct.lots := by
      have h := List.mergeSort_perm acct.lots lotPriceLe
      rwa [hms] at h
    refine ⟨l, rest, rfl, ?_, mergeSort_head_min_price _ _ _ hms, hperm⟩
    have hemp : acct.lots.isEmpty = false := by
      simpa [List.isEmpty_iff] using hlots
    have hnlt : ¬ cur < acct.last_update_balance := by omega
    simp [reconcileStep, reconcileNoSyncAccount, hflag, hns, hemp, hnlt, hgt, hms]

/-- C9: during the balance scan of process_account_sync, a lot of
unknown provenance is created exactly when the chain balance strictly
exceeds the recorded balance plus the dust threshold (token.amount(0.005)
in the source); when created it holds the whole surplus and the balance
becomes the chain balance, and at or below the threshold the lots and
the balance are left unchanged. -/
theorem account_sync_dust_threshold_lot_creation
    (stopEpoch cur dust lotNumber : Nat) (whenDate : Int) (price : ℚ)
    (acct : TrackedAccount) :
    ((accountScanStep stopEpoch cur dust lotNumber whenDate price acct).lots ≠
        acct.lots ↔ acct.last_update_balance + dust < cur) ∧
    (acct.last_update_balance + dust < cur →
      (accountScanStep stopEpoch cur dust lotNumber whenDate price acct).lots =
        acct.lots ++
          [{ lot_number := lotNumber
             acquisition :=
               { when := whenDate, price := price
                 kind := LotAcquistionKind.notAvailable }
             amount := cur - acct.last_update_balance }] ∧
      (accountScanStep stopEpoch cur dust lotNumber whenDate price
        acct).last_update_balance = cur) ∧
    (acct.last_update_balance + dust ≥ cur →
      (accountScanStep stopEpoch cur dust lotNumber whenDate price acct).lots =
        acct.lots ∧
      (accountScanStep stopEpoch cur dust lotNumber whenDate price
        acct).last_update_balance = acct.last_update_balance) := by
  by_cases h2 : acct.last_update_balance + dust < cur
  · have h1 : ¬ cur < acct.last_update_balance := by omega
    have hres : accountScanStep stopEpoch cur dust lotNumber whenDate price acct =
        { acct with
          last_update_epoch := stopEpoch
          lots := acct.lots ++
            [{ lot_number := lotNumber
               acquisition :=
                 { when := whenDate, price := price
                   kind := LotAcquistionKind.notAvailable }
               amount := cur - acct.last_update_balance }]
          last_update_balance := cur } := by
      unfold accountScanStep
      simp [h1, h2]
    refine ⟨?_, fun _ => ⟨by rw [hres], by rw [hres]⟩,
      fun hle => absurd h2 (by omega)⟩
    constructor
    · intro _
      exact h2
    · intro _
      rw [hres]
      intro heq
      have hlen := congrArg List.length heq
      simp at hlen
  · have hres : accountScanStep stopEpoch cur dust lotNumber whenDate price acct =
        { acct with last_update_epoch := stopEpoch } := by
      unfold accountScanStep
      by_cases h1 : cur < acct.last_update_balance
      · simp [h1]
      · simp [h1, h2]
    refine ⟨?_, fun hc => absurd hc h2, fun _ => ⟨by rw [hres], by rw [hres]⟩⟩
    constructor
    · intro hne
      rw [hres] at hne
      exact absurd rfl hne
    · intro hc
      exact absurd hc h2

/-- C10: during the balance scan of process_account_sync, an account
whose chain balance is strictly below the recorded last_update_balance
is persisted with only its last_update_epoch advanced; its lots,
balance and every other field are unchanged. -/
theorem account_sync_balance_deficit_only_warns
    (stopEpoch cur dust lotNumber : Nat) (whenDate : Int) (price : ℚ)
    (acct : TrackedAccount) (h : cur < acct.last_update_balance) :
    accountScanStep stopEpoch cur dust lotNumber whenDate price acct =
      { acct with last_update_epoch := stopEpoch } := by
  unfold accountScanStep
  simp [h]

/-- C2 counterexample: a pending exchange deposit whose transaction has
no reported status is cancelled by process_sync_exchange even though the
chain block height (0) does not exceed its last_valid_block_height (10):
the missing status collapses to a not-ok status and the failure branch
cancels before the expiry test is ever reached. -/
theorem pending_deposit_cancelled_before_expiry :
    syncDepositAction 0
      { signature := 11, amount := 5, lastValidBlockHeight := 10 }
      none true none = DepositSyncAction.cancelDeposit ∧
    ¬ (10 < 0) := by
  constructor
  · rfl
  · omega

/-- C2 amended: for pending swaps and pending transfers with no reported
transaction status, the sync step cancels the record exactly when the
chain block height strictly exceeds last_valid_block_height and
otherwise keeps it pending, and cancellation performs no ledger mutation
other than removing the pending record; a pending exchange deposit with
no reported status, however, is treated as failed and cancelled
unconditionally, whatever the block height. -/
theorem pending_expiry_cancellation :
    (∀ bh lvbh : Nat,
      (syncSwapDecision bh lvbh none = SyncDecision.cancel ↔ lvbh < bh) ∧
      (syncSwapDecision bh lvbh none = SyncDecision.keep ↔ bh ≤ lvbh)) ∧
    (∀ bh lvbh : Nat,
      (syncTransferDecision bh lvbh none = SyncDecision.cancel ↔ lvbh < bh) ∧
      (syncTransferDecision bh lvbh none = SyncDecision.keep ↔ bh ≤ lvbh)) ∧
    (∀ (bh : Nat) (pd : PendingDepositRec) (fiat : Bool)
        (rd : Option (List DepositInfo)),
      syncDepositAction bh pd none fiat rd = DepositSyncAction.cancelDeposit) ∧
    (∀ (ledger : Ledger) (sig : Nat),
      (cancel_swap ledger sig).accounts = ledger.accounts ∧
      (cancel_swap ledger sig).disposedLots = ledger.disposedLots ∧
      (cancel_swap ledger sig).pendingSwaps =
        ledger.pendingSwaps.filter (fun s => s != sig) ∧
      (cancel_transfer ledger sig).accounts = ledger.accounts ∧
      (cancel_transfer ledger sig).disposedLots = ledger.disposedLots ∧
      (cancel_transfer ledger sig).pendingTransfers =
        ledger.pendingTransfers.filter (fun s => s != sig) ∧
      (cancel_deposit ledger sig).accounts = ledger.accounts ∧
      (cancel_deposit ledger sig).disposedLots = ledger.disposedLots ∧
      (cancel_deposit ledger sig).pendingDeposits =
        ledger.pendingDeposits.filter (fun p => p.signature != sig)) := by
  refine ⟨?_, ?_, ?_, ?_⟩
  · intro bh lvbh
    constructor
    · unfold syncSwapDecision
      by_cases h : lvbh < bh <;> simp [h]
    · unfold syncSwapDecision
      by_cases h : lvbh < bh <;> simp [h] <;> omega
  · intro bh lvbh
    constructor
    · unfold syncTransferDecision
      by_cases h : lvbh < bh <;> simp [h]
    · unfold syncTransferDecision
      by_cases h : lvbh < bh <;> simp [h] <;> omega
  · intro bh pd fiat rd
    rfl
  · intro ledger sig
    exact ⟨rfl, rfl, rfl, rfl, rfl, rfl, rfl, rfl, rfl⟩

/-- C5: a confirmed pending exchange deposit synced while the exchange
client supplies no deposit history has its tax lots dropped through
db.drop_deposit when the token is fiat-fungible, and for any other token
the process aborts through the unconditional panic at bin/sys.rs line
276 instead of dropping the lots. -/
theorem blind_deposit_fiat_asymmetry
    (bh : Nat) (pd : PendingDepositRec) (fiat : Bool) :
    syncDepositAction bh pd (some (true, true)) fiat none =
      (if fiat then DepositSyncAction.dropDeposit
       else DepositSyncAction.abortProcess) := by
  cases fiat <;> rfl

/-- C8: a confirmed pending exchange deposit found in the exchange
deposit history is settled against the reported amount: a difference of
10 or more base units only reports a mismatch error, neither confirming
nor cancelling the record, while a difference below 10 base units
confirms the deposit, the confirmation carrying the recorded pending
amount. -/
theorem deposit_amount_mismatch_threshold
    (bh : Nat) (pd : PendingDepositRec) (fiat : Bool)
    (ds : List DepositInfo) (di : DepositInfo)
    (hfind : ds.find? (fun d => d.txId == pd.signature) = some di) :
    syncDepositAction bh pd (some (true, true)) fiat (some ds) =
      (if 10 ≤ ((di.amountBase : Int) - (pd.amount : Int)).natAbs then
        DepositSyncAction.mismatchError
       else DepositSyncAction.confirmDeposit pd.amount) := by
  unfold syncDepositAction
  simp [hfind]

/-- C4: requesting an exchange withdrawal only appends the pending
withdrawal record, disposing no lots and touching no account; during a
later sync, a withdrawal the exchange reports completed is confirmed,
dated today, exactly when the report carries a transaction id, and a
completed report without a transaction id cancels the record with no lot
disposal; a confirmation disposes the backing lots selected at request
time, each disposal record dated that day. -/
theorem withdrawal_disposal_deferred_to_confirmation
    (ledger : Ledger) (rec : PendingWithdrawalRec) (todayDate : Int)
    (wi : WithdrawalInfo) :
    ((process_exchange_withdraw ledger rec).accounts = ledger.accounts ∧
     (process_exchange_withdraw ledger rec).disposedLots = ledger.disposedLots ∧
     (process_exchange_withdraw ledger rec).pendingWithdrawals =
       ledger.pendingWithdrawals ++ [rec]) ∧
    (syncWithdrawalAction todayDate wi = WithdrawalSyncAction.confirmW todayDate ↔
      wi.completed = true ∧ wi.txId.isSome = true) ∧
    (syncWithdrawalAction todayDate wi = WithdrawalSyncAction.cancelW ↔
      wi.completed = true ∧ wi.txId = none) ∧
    (wi.completed = true → wi.txId = none →
      (applyWithdrawalSync todayDate wi rec ledger).disposedLots =
        ledger.disposedLots ∧
      (applyWithdrawalSync todayDate wi rec ledger).accounts =
        ledger.accounts ∧
      (applyWithdrawalSync todayDate wi rec ledger).pendingWithdrawals =
        ledger.pendingWithdrawals.filter (fun q => q.tag != rec.tag)) ∧
    (ledger.pendingWithdrawals.find? (fun p => p.tag == rec.tag) = some rec →
      wi.completed = true → wi.txId.isSome = true →
      (applyWithdrawalSync todayDate wi rec ledger).disposedLots =
        ledger.disposedLots ++ rec.backingLots.map
          (fun l => { lot := l, whenDate := todayDate, fee := some rec.fee })) := by
  refine ⟨⟨rfl, rfl, rfl⟩, ?_, ?_, ?_, ?_⟩
  · unfold syncWithdrawalAction
    cases hc : wi.completed
    · simp
    · cases ht : wi.txId <;> simp
  · unfold syncWithdrawalAction
    cases hc : wi.completed
    · simp
    · cases ht : wi.txId <;> simp
  · intro hc ht
    unfold applyWithdrawalSync syncWithdrawalAction
    rw [hc, ht]
    exact ⟨rfl, rfl, rfl⟩
  · intro hfind hc ht
    unfold applyWithdrawalSync syncWithdrawalAction
    rw [hc]
    cases htx : wi.txId with
    | none => rw [htx] at ht; simp at ht
    | some v =>
      simp only [if_true]
      unfold confirm_withdrawal
      rw [hfind]

theorem lookupPrice_erasePrice (tok : Nat) (c : List (Nat × ℚ)) :
    lookupPrice tok (erasePrice tok c) = none := by
  unfold lookupPrice erasePrice
  rw [List.find?_eq_none.mpr]
  · rfl
  · intro x hx
    have := (List.mem_filter.mp hx).2
    simp at this
    simp [this]

/-- C7: the current-price lookup answers from the cache, with no fetch,
exactly when a cache entry for the requested token exists and no more
than 30 seconds have elapsed since the recorded fetch instant, and in
that case it returns the cached price and leaves the state untouched;
once more than 30 seconds have elapsed the cached entry for the
requested token is invalidated, so the price is fetched anew, the answer
coming from the freshly inserted fetch results and the recorded instant
reset to now. -/
theorem current_price_cache_ttl
    (st : PriceCacheState) (now tok : Nat) (fetched : List (Nat × ℚ)) :
    ((get_current_price st now tok fetched).1 = true ↔
      (lookupPrice tok st.cache).isSome = true ∧
        now - st.lastDataFetchInstant ≤ 30) ∧
    ((get_current_price st now tok fetched).1 = true →
      (get_current_price st now tok fetched).2.1 = lookupPrice tok st.cache ∧
      (get_current_price st now tok fetched).2.2 = st) ∧
    (30 < now - st.lastDataFetchInstant →
      (get_current_price st now tok fetched).1 = false ∧
      (get_current_price st now tok fetched).2.1 =
        lookupPrice tok (insertAllPrices fetched (erasePrice tok st.cache)) ∧
      (get_current_price st now tok fetched).2.2.lastDataFetchInstant = now) := by
  by_cases httl : 30 < now - st.lastDataFetchInstant
  · have hres : get_current_price st now tok fetched =
        (false, lookupPrice tok (insertAllPrices fetched (erasePrice tok st.cache)),
          { cache := insertAllPrices fetched (erasePrice tok st.cache)
            lastDataFetchInstant := now }) := by
      unfold get_current_price
      simp [httl, lookupPrice_erasePrice]
    rw [hres]
    refine ⟨?_, by intro h; simp at h, fun _ => ⟨rfl, rfl, rfl⟩⟩
    constructor
    · intro h
      simp at h
    · intro h
      omega
  · have hle : now - st.lastDataFetchInstant ≤ 30 := by omega
    cases hc : lookupPrice tok st.cache with
    | some p =>
      have hres : get_current_price st now tok fetched = (true, some p, st) := by
        unfold get_current_price
        simp [httl, hc]
      rw [hres]
      exact ⟨by simp [hle], fun _ => ⟨rfl, rfl⟩, fun h => absurd h httl⟩
    | none =>
      have hres : get_current_price st now tok fetched =
          (false, lookupPrice tok (insertAllPrices fetched st.cache),
            { st with cache := insertAllPrices fetched st.cache }) := by
        unfold get_current_price
        simp [httl, hc]
      rw [hres]
      refine ⟨?_, by intro h; simp at h, fun h => absurd h httl⟩
      constructor
      · intro h
        simp at h
      · intro h
        simp at h

/-- Evaluation witness for the long-term classification theorem at the
concrete dates 0, 365 and today 400. -/
theorem long_term_cap_gain_365_day_threshold_witness :
    (is_long_term_cap_gain 0 (some 365) 400 = true ↔ (365 : Int) ≤ 365 - 0) ∧
    (is_long_term_cap_gain 0 none 400 = is_long_term_cap_gain 0 (some 400) 400) ∧
    is_long_term_cap_gain 0 (some (0 + 365)) 400 = true ∧
    is_long_term_cap_gain 0 (some (0 + 364)) 400 = false :=
  long_term_cap_gain_365_day_threshold 0 365 400

/-- Evaluation witness for the balance invariant theorem on concrete
accounts. -/
theorem balance_invariant_after_mutations_witness :
    balanceInvariant (process_account_add 1 0 2 LotAcquistionKind.fiat 5 9 0
      "" 3 false) ∧
    balanceInvariant acctSampleA ∧
    acctSampleA.last_update_epoch < 4 ∧
    balanceInvariant (inflationRewardStep 4 0 (some 7) 2 0 2 acctSampleA) ∧
    balanceInvariant (reconcileNoSyncAccount 20 acctSampleA).1 :=
  ⟨(balance_invariant_after_mutations.1 1 0 2 LotAcquistionKind.fiat 5 9 0
      "" 3 false).1,
   by decide,
   by decide,
   (balance_invariant_after_mutations.2.1 4 0 2 0 2 acctSampleA).1 (some 7)
     (by decide),
   balance_invariant_after_mutations.2.2.1 20 acctSampleA (by decide)⟩

/-- Evaluation witness for the no-sync reconciliation theorem on a
concrete account with balance 12 against chain balance 20. -/
theorem no_sync_reconcile_adds_surplus_to_lowest_price_lot_witness :
    ∃ l rest, acctSampleA.lots.mergeSort lotPriceLe = l :: rest ∧
      reconcileStep true 20 acctSampleA =
        ({ acctSampleA with
            lots :=
              { l with
                amount := l.amount + (20 - acctSampleA.last_update_balance) }
              :: rest
            last_update_balance := 20 }, true) ∧
      (∀ x ∈ acctSampleA.lots, l.acquisition.price ≤ x.acquisition.price) ∧
      (l :: rest).Perm acctSampleA.lots :=
  no_sync_reconcile_adds_surplus_to_lowest_price_lot true 20 acctSampleA rfl
    rfl (by decide) (by decide)

/-- Evaluation witness for the dust threshold theorem: balance 12 plus
dust 5 is below chain balance 100, so the balance is updated. -/
theorem account_sync_dust_threshold_lot_creation_witness :
    acctSampleA.last_update_balance + 5 < 100 ∧
    (accountScanStep 7 100 5 42 0 1 acctSampleA).last_update_balance = 100 :=
  ⟨by decide,
   ((account_sync_dust_threshold_lot_creation 7 100 5 42 0 1 acctSampleA).2.1
     (by decide)).2⟩

/-- Evaluation witness for the balance-deficit theorem: chain balance 3
is below the recorded balance 12, so only the epoch advances. -/
theorem account_sync_balance_deficit_only_warns_witness :
    3 < acctSampleA.last_update_balance ∧
    accountScanStep 9 3 0 0 0 1 acctSampleA =
      { acctSampleA with last_update_epoch := 9 } :=
  ⟨by decide,
   account_sync_balance_deficit_only_warns 9 3 0 0 0 1 acctSampleA (by decide)⟩

/-- Evaluation witness for the amended expiry theorem at concrete block
heights. -/
theorem pending_expiry_cancellation_witness :
    (syncSwapDecision 5 3 none = SyncDecision.cancel ↔ 3 < 5) ∧
    (syncTransferDecision 2 3 none = SyncDecision.keep ↔ 2 ≤ 3) ∧
    syncDepositAction 0
      { signature := 1, amount := 2, lastValidBlockHeight := 9 }
      none false none = DepositSyncAction.cancelDeposit :=
  ⟨(pending_expiry_cancellation.1 5 3).1,
   (pending_expiry_cancellation.2.1 2 3).2,
   pending_expiry_cancellation.2.2.1 0
     { signature := 1, amount := 2, lastValidBlockHeight := 9 } false none⟩

/-- Evaluation witness for the blind-deposit theorem on a fiat-fungible
token. -/
theorem blind_deposit_fiat_asymmetry_witness :
    syncDepositAction 4 pdSample (some (true, true)) true none =
      (if true then DepositSyncAction.dropDeposit
       else DepositSyncAction.abortProcess) :=
  blind_deposit_fiat_asymmetry 4 pdSample true

/-- Evaluation witness for the mismatch threshold theorem: reported 100
against recorded 95 differs by 5, below the threshold. -/
theorem deposit_amount_mismatch_threshold_witness :
    [depSample].find? (fun d => d.txId == pdSample.signature) = some depSample ∧
    syncDepositAction 3 pdSample (some (true, true)) false (some [depSample]) =
      (if 10 ≤ ((depSample.amountBase : Int) - (pdSample.amount : Int)).natAbs
       then DepositSyncAction.mismatchError
       else DepositSyncAction.confirmDeposit pdSample.amount) :=
  ⟨rfl,
   deposit_amount_mismatch_threshold 3 pdSample false [depSample] depSample rfl⟩

/-- Evaluation witness for the withdrawal theorem: a completed report
without a transaction id cancels with no disposal, one with a
transaction id confirms, disposing the backing lots dated that day. -/
theorem withdrawal_disposal_deferred_to_confirmation_witness :
    (applyWithdrawalSync 5 { tag := 3, completed := true, txId := none }
      wRecSample ledgerSample).disposedLots = ledgerSample.disposedLots ∧
    (applyWithdrawalSync 5 { tag := 3, completed := true, txId := some 77 }
      wRecSample ledgerSample).disposedLots =
      ledgerSample.disposedLots ++ wRecSample.backingLots.map
        (fun l => { lot := l, whenDate := 5, fee := some wRecSample.fee }) :=
  ⟨((withdrawal_disposal_deferred_to_confirmation ledgerSample wRecSample 5
      { tag := 3, completed := true, txId := none }).2.2.2.1 rfl rfl).1,
   (withdrawal_disposal_deferred_to_confirmation ledgerSample wRecSample 5
      { tag := 3, completed := true, txId := some 77 }).2.2.2.2 (by decide)
      rfl rfl⟩

/-- Evaluation witness for the price-cache theorem: a cached entry aged
10 seconds is returned without fetching and leaves the state
untouched. -/
theorem current_price_cache_ttl_witness :
    (get_current_price priceStSample 110 1 []).1 = true ∧
    (get_current_price priceStSample 110 1 []).2.2 = priceStSample :=
  have h1 : (get_current_price priceStSample 110 1 []).1 = true :=
    (current_price_cache_ttl priceStSample 110 1 []).1.mpr
      ⟨by decide, by decide⟩
  ⟨h1, ((current_price_cache_ttl priceStSample 110 1 []).2.1 h1).2⟩
